/-
Verification of the book-translator core against its specification.

Python strings are modelled as `List Char` (`Str`); Python dicts as
insertion-ordered association lists with overwrite-in-place semantics;
floating-point similarity scores as exact rationals (`ℚ`); fallible calls as
`Option`.  Unicode case operations (`str.lower`, `str.upper`, `str.isupper`)
and the regex classes `\w`/`\s` are modelled for the ASCII and Cyrillic
ranges actually exercised by the repository.  `unicodedata.normalize("NFKC", ·)`
is the identity on every NFC ASCII/Cyrillic string considered here and is
modelled as the identity.  Recursive text scanners take an explicit fuel
argument (always instantiated with the text length, which bounds the number
of scanning steps) so that every definition reduces inside the kernel.
-/
import Mathlib

namespace BookTranslator

/-- Python strings are sequences of Unicode code points. -/
abbrev Str := List Char

/-! ### Character classes (ASCII + Cyrillic fragment of Python's Unicode semantics) -/

/-- `str.isupper` on one character, for ASCII letters and Cyrillic А..Я, Ё. -/
def pyIsUpper (c : Char) : Bool :=
  (65 ≤ c.toNat && c.toNat ≤ 90) ||
  (0x410 ≤ c.toNat && c.toNat ≤ 0x42F) ||
  c.toNat == 0x401

/-- `str.lower` on one character, for ASCII letters and Cyrillic А..Я, Ё. -/
def pyToLower (c : Char) : Char :=
  if 65 ≤ c.toNat && c.toNat ≤ 90 then Char.ofNat (c.toNat + 32)
  else if 0x410 ≤ c.toNat && c.toNat ≤ 0x42F then Char.ofNat (c.toNat + 32)
  else if c.toNat == 0x401 then Char.ofNat 0x451
  else c

/-- `str.upper` on one character, for ASCII letters and Cyrillic а..я, ё. -/
def pyToUpper (c : Char) : Char :=
  if 97 ≤ c.toNat && c.toNat ≤ 122 then Char.ofNat (c.toNat - 32)
  else if 0x430 ≤ c.toNat && c.toNat ≤ 0x44F then Char.ofNat (c.toNat - 32)
  else if c.toNat == 0x451 then Char.ofNat 0x401
  else c

/-- Python `str.strip` / regex `\s` whitespace (the ASCII whitespace set). -/
def isPySpace (c : Char) : Bool :=
  c == ' ' || c == '\t' || c == '\n' || c == '\r' ||
  c == Char.ofNat 11 || c == Char.ofNat 12

/-- Regex `\w`: alphanumerics plus underscore (ASCII + Cyrillic fragment). -/
def isWordChar (c : Char) : Bool :=
  (48 ≤ c.toNat && c.toNat ≤ 57) ||
  (65 ≤ c.toNat && c.toNat ≤ 90) ||
  (97 ≤ c.toNat && c.toNat ≤ 122) ||
  c == '_' ||
  (0x410 ≤ c.toNat && c.toNat ≤ 0x44F) ||
  c.toNat == 0x401 || c.toNat == 0x451

/-- Python `str.strip()`: drop whitespace from both ends. -/
def pyStrip (s : Str) : Str :=
  ((s.dropWhile isPySpace).reverse.dropWhile isPySpace).reverse

/-- `re.sub(r"\s+", " ", s)`: collapse each maximal whitespace run to one space.
The boolean flag records whether the previous character was inside a run. -/
def collapseWsGo : Bool → Str → Str
  | _, [] => []
  | inRun, c :: rest =>
    if isPySpace c then
      if inRun then collapseWsGo true rest else ' ' :: collapseWsGo true rest
    else c :: collapseWsGo false rest

def collapseWs (s : Str) : Str := collapseWsGo false s

/-! ### Generic ordered-dict and sorting helpers -/

/-- Python dict assignment `d[k] = v`: overwrite in place, else append. -/
def assocSet {β : Type} (k : Str) (v : β) : List (Str × β) → List (Str × β)
  | [] => [(k, v)]
  | (k0, v0) :: rest =>
    if k0 = k then (k0, v) :: rest else (k0, v0) :: assocSet k v rest

/-- Python dict lookup `d[k]` / `d.get(k)`. -/
def assocGet {β : Type} (k : Str) : List (Str × β) → Option β
  | [] => none
  | (k0, v0) :: rest => if k0 = k then some v0 else assocGet k rest

/-- Stable insertion (by a numeric key, descending) used to model Python's
stable `sorted(..., key=len, reverse=True)`. -/
def insertLenDesc {α : Type} (len : α → Nat) (x : α) : List α → List α
  | [] => [x]
  | y :: ys => if len y ≤ len x then x :: y :: ys else y :: insertLenDesc len x ys

/-- Stable sort, descending by `len` (model of `sorted(l, key=len, reverse=True)`). -/
def sortLenDesc {α : Type} (len : α → Nat) : List α → List α
  | [] => []
  | x :: xs => insertLenDesc len x (sortLenDesc len xs)

/-! ### translation_memory.py -/

namespace TranslationMemory

/-- `normalize_text`: strip, lower-case, NFKC (identity here), collapse whitespace. -/
def normalize_text (t : Str) : Str :=
  collapseWs ((pyStrip t).map pyToLower)

/-- `normalize_for_comparison`: `normalize_text` then `re.sub(r"[^\w\s]", "", ·)`. -/
def normalize_for_comparison (t : Str) : Str :=
  (normalize_text t).filter (fun c => isWordChar c || isPySpace c)

/-- Longest common subsequence length, with fuel bounding the sum of lengths
(each recursive step removes at least one character overall). -/
def lcsF : Nat → Str → Str → Nat
  | _, [], _ => 0
  | _, _, [] => 0
  | 0, _, _ => 0
  | f + 1, a :: as, b :: bs =>
    if a = b then lcsF f as bs + 1
    else max (lcsF f (a :: as) bs) (lcsF f as (b :: bs))

def lcs (a b : Str) : Nat := lcsF (a.length + b.length) a b

/-- `rapidfuzz.fuzz.ratio(a, b) / 100`, exactly: the normalized Indel
similarity `2·LCS/(|a|+|b|)`, with `ratio("","") = 100.0`.  Floats are
modelled as exact rationals (built with `mkRat`, which the kernel can
evaluate). -/
def similarity (a b : Str) : ℚ :=
  if a = [] ∧ b = [] then 1
  else mkRat (2 * lcs a b) (a.length + b.length)

def EXACT_THRESHOLD : ℚ := mkRat 98 100
def FUZZY_THRESHOLD : ℚ := mkRat 95 100
def SUGGEST_THRESHOLD : ℚ := mkRat 80 100

/-- One stored TM segment (`{'source': …, 'target': …, 'metadata': …}`). -/
structure Segment where
  source : Str
  target : Str
  metadata : List (Str × Str)
deriving DecidableEq

/-- `TranslationMemory.add`: strip both strings, append only when no stored
segment has an equal (post-strip) source. -/
def add (memory : List Segment) (source target : Str)
    (metadata : List (Str × Str)) : List Segment :=
  let entry : Segment := ⟨pyStrip source, pyStrip target, metadata⟩
  if memory.any (fun e => e.source = entry.source) then memory
  else memory ++ [entry]

/-- The running best-match state of the `search` loop. -/
structure SearchState where
  bestMatch : Option Str
  bestSim : ℚ
  matchType : String
deriving DecidableEq

/-- Loop body of `search` (lines 134-158): update the best match when the
similarity strictly improves, re-deriving the match type by the threshold
cascade. -/
def searchStep (sourceCmp : Str) (st : SearchState) (e : Segment) : SearchState :=
  let sim := similarity sourceCmp (normalize_for_comparison e.source)
  if st.bestSim < sim then
    { bestMatch := some e.target
      bestSim := sim
      matchType :=
        if EXACT_THRESHOLD ≤ sim then "exact"
        else if FUZZY_THRESHOLD ≤ sim then "fuzzy"
        else if SUGGEST_THRESHOLD ≤ sim then "suggest"
        else "none" }
  else st

def searchState (memory : List Segment) (source : Str) : SearchState :=
  memory.foldl (searchStep (normalize_for_comparison source))
    ⟨none, 0, "none"⟩

/-- `TranslationMemory.search`.  The caller-supplied `similarity_threshold`
is defaulted to `FUZZY_THRESHOLD` (line 122) but — exactly as in the source —
never consulted afterwards: the final gate (line 160) uses
`SUGGEST_THRESHOLD` and Python truthiness of `best_match` (`None` and `""`
are both falsy). -/
def search (memory : List Segment) (source : Str) (similarity_threshold : Option ℚ) :
    Option (Str × ℚ × String) :=
  let _threshold := similarity_threshold.getD FUZZY_THRESHOLD
  if memory = [] then none
  else
    let st := searchState memory source
    match st.bestMatch with
    | none => none
    | some t =>
      if t ≠ [] ∧ SUGGEST_THRESHOLD ≤ st.bestSim then some (t, st.bestSim, st.matchType)
      else none

/-- `TranslationMemory.find_in_tm`. -/
def find_in_tm (memory : List Segment) (source : Str) :
    Option Str × ℚ × String :=
  match search memory source (some SUGGEST_THRESHOLD) with
  | some (t, s, c) => (some t, s, c)
  | none => (none, 0, "none")

/-- The spec's three-tier classification, stated by its interval bounds
(§4.3: ≥0.98 exact, [0.95,0.98) fuzzy, [0.80,0.95) suggest, else none). -/
def specTier (s : ℚ) : String :=
  if EXACT_THRESHOLD ≤ s then "exact"
  else if FUZZY_THRESHOLD ≤ s then "fuzzy"
  else if SUGGEST_THRESHOLD ≤ s then "suggest"
  else "none"

end TranslationMemory

/-! ### mt_cache.py -/

namespace MtCache

/-- One cache value (`self.cache[key]`).  The wall-clock `timestamp` field is
not representable in a pure model and is omitted; no operation reads it. -/
structure CacheEntry where
  source_text : Str
  translation : Str
  source_lang : Str
  target_lang : Str
  engine : Str
deriving DecidableEq

/-- `MTCache._make_key`: the SHA-256 hex digest of
`f"{engine}:{source_lang}:{target_lang}:{text}"`.  The digest is a fixed
deterministic function and every property below depends only on equality of
digested strings, so the digest is modelled as the identity on the digested
string (collision-freedom of SHA-256 is assumed, as the spec does). -/
def make_key (text source_lang target_lang engine : Str) : Str :=
  engine ++ ':' :: (source_lang ++ ':' :: (target_lang ++ ':' :: text))

/-- Source-text preview stored in the entry:
`text[:200] + '...' if len(text) > 200 else text`. -/
def truncateSource (text : Str) : Str :=
  if 200 < text.length then text.take 200 ++ "...".toList else text

/-- `MTCache.get` (cache-content part; the hit/miss counters it also bumps
never influence any returned translation and are omitted). -/
def get (cache : List (Str × CacheEntry)) (text source_lang target_lang engine : Str) :
    Option Str :=
  (assocGet (make_key text source_lang target_lang engine) cache).map
    (fun e => e.translation)

/-- `MTCache.set`. -/
def set (cache : List (Str × CacheEntry))
    (text translation source_lang target_lang engine : Str) :
    List (Str × CacheEntry) :=
  assocSet (make_key text source_lang target_lang engine)
    ⟨truncateSource text, translation, source_lang, target_lang, engine⟩ cache

/-- One recorded `set` call, for reasoning about a history of insertions. -/
structure SetOp where
  text : Str
  translation : Str
  source_lang : Str
  target_lang : Str
  engine : Str
deriving DecidableEq

/-- Replay a list of `set` calls in order, starting from a given cache. -/
def runSets : List SetOp → List (Str × CacheEntry) → List (Str × CacheEntry)
  | [], c => c
  | op :: rest, c =>
    runSets rest (set c op.text op.translation op.source_lang op.target_lang op.engine)

end MtCache

/-! ### glossary.py -/

namespace Glossary

/-- `re.compile(re.escape(source), re.IGNORECASE).sub(target, text)` for a
literal `source` pattern: replace every case-insensitive, non-overlapping,
leftmost occurrence.  The replacement is inserted literally (the glossary
targets contain no backslash template escapes).  An empty pattern is treated
as matching nothing (glossary entries have non-empty sources).  Fuel bounds
the scan length. -/
def subCIF : Nat → Str → Str → Str → Str
  | _, _, _, [] => []
  | 0, _, _, text => text
  | f + 1, pat, rep, c :: rest =>
    if pat ≠ [] ∧ ((c :: rest).take pat.length).map pyToLower = pat.map pyToLower then
      rep ++ subCIF f pat rep ((c :: rest).drop pat.length)
    else c :: subCIF f pat rep rest

def subCI (pat rep text : Str) : Str := subCIF text.length pat rep text

/-- `Glossary.apply`: substitute every term, processing the (insertion-ordered)
items stably sorted by source length, longest first. -/
def apply (glossary : List (Str × Str)) (text : Str) : Str :=
  (sortLenDesc (fun p => p.1.length) glossary).foldl
    (fun result p => subCI p.1 p.2 result) text

end Glossary

/-! ### translator.py, translate_docx document loop -/

namespace Translator

/-- The `"\n\n"` separator used to join and re-split batches. -/
def sepNN : Str := '\n' :: '\n' :: []

/-- Python `sep.join(parts)`. -/
def pyJoin (sep : Str) : List Str → Str
  | [] => []
  | [x] => x
  | x :: y :: ys => x ++ sep ++ pyJoin sep (y :: ys)

/-- Python `s.split(sep)` for non-empty `sep`: non-overlapping leftmost
occurrences, adjacent separators yielding empty segments.  `acc` holds the
current segment reversed; fuel bounds the scan length. -/
def splitSepF (sep : Str) : Nat → Str → Str → List Str
  | _, acc, [] => [acc.reverse]
  | 0, acc, text => [acc.reverse ++ text]
  | f + 1, acc, c :: rest =>
    if sep.isPrefixOf (c :: rest) then
      acc.reverse :: splitSepF sep f [] ((c :: rest).drop sep.length)
    else splitSepF sep f (c :: acc) rest

def pySplit (sep s : Str) : List Str :=
  if sep = [] then [s] else splitSepF sep s.length [] s

/-- Batching: `paragraphs[i:i+batch_size]` for `i in range(0, n, batch_size)`.
Fuel bounds the number of chunks; a zero batch size (a `ValueError` in
Python's `range`) yields no batches. -/
def chunksF (bs : Nat) : Nat → List Str → List (List Str)
  | _, [] => []
  | 0, l => [l]
  | f + 1, l => l.take bs :: chunksF bs f (l.drop bs)

def mkBatches (bs : Nat) (l : List Str) : List (List Str) :=
  if bs = 0 then [] else chunksF bs l.length l

/-- `f"[ERROR: Translation failed for batch {batch_num}]"`. -/
def batchMarker (n : Nat) : Str :=
  "[ERROR: Translation failed for batch ".toList ++ Nat.toDigits 10 n ++ "]".toList

/-- Lines 198-206: split the translated batch back on `"\n\n"`; emit the
parts separately when the count matches the batch, else emit the whole
translation as one combined paragraph. -/
def emitBatch (batch : List Str) (translated : Str) : List Str :=
  let parts := pySplit sepNN translated
  if parts.length = batch.length then parts else [translated]

/-- Lines 188-215: the per-batch loop.  The per-segment pipeline
`translate_text` is abstracted as `tr`; `none` models a raised exception,
answered by appending the visible failure marker and continuing. -/
def processBatches (tr : Str → Option Str) : Nat → List (List Str) → List Str
  | _, [] => []
  | n, b :: rest =>
    (match tr (pyJoin sepNN b) with
     | some t => emitBatch b t
     | none => [batchMarker n]) ++ processBatches tr (n + 1) rest

/-- `Translator.translate_docx`, from the paragraph list onward: drop
paragraphs that are empty after stripping, batch, translate per batch. -/
def translate_docx (tr : Str → Option Str) (batch_size : Nat)
    (paragraphs : List Str) : List Str :=
  processBatches tr 1
    (mkBatches batch_size (paragraphs.filter (fun p => !(pyStrip p).isEmpty)))

end Translator

/-! ### entity_placeholder.py -/

namespace EntityPlaceholder

/-- One decoded glossary-file entry, as consumed by `load_glossary`
(`entry.get('source','')`, `entry.get('target','')`, `entry.get('type','unknown')`,
`entry.get('case_sensitive', True)`, `entry.get('note','')`). -/
structure RawEntry where
  source : Str
  target : Str
  etype : Str
  case_sensitive : Bool
  note : Str
deriving DecidableEq

/-- The per-entity record stored in `self.entities[source]`. -/
structure EntityVal where
  target : Str
  etype : Str
  case_sensitive : Bool
  note : Str
deriving DecidableEq

/-- The loaded engine state: `self.entities` and `self.source_forms`
(both insertion-ordered dicts). -/
structure EPState where
  entities : List (Str × EntityVal)
  source_forms : List (Str × Str)
deriving DecidableEq

def endsWith (s suffix : Str) : Bool := suffix.isSuffixOf s

/-- `EntityPlaceholder._add_russian_forms`: register `source.lower()` and the
suffix-generated declension variants (each lower-cased) as keys mapping back
to the canonical `source`. -/
def add_russian_forms (source : Str) (forms : List (Str × Str)) : List (Str × Str) :=
  let forms1 := assocSet (source.map pyToLower) source forms
  if endsWith source "ём".toList || endsWith source "ем".toList then
    let base := source.take (source.length - 2)
    ["ёма", "ема", "ёму", "ему", "ёмом", "емом", "ёме", "еме"].foldl
      (fun fs suf => assocSet ((base ++ suf.toList).map pyToLower) source fs) forms1
  else if endsWith source "а".toList || endsWith source "я".toList then
    let base := source.take (source.length - 1)
    let sufs := if endsWith source "я".toList then ["и", "е", "ей", "ю"] else ["ы", "е", "ой", "у"]
    sufs.foldl (fun fs suf => assocSet ((base ++ suf.toList).map pyToLower) source fs) forms1
  else if endsWith source "ек".toList || endsWith source "ик".toList then
    ["а", "у", "ом", "е"].foldl
      (fun fs suf => assocSet ((source ++ suf.toList).map pyToLower) source fs) forms1
  else forms1

/-- `EntityPlaceholder.load_glossary` on already-decoded entries: keep entries
with non-empty source and target, record the entity and its generated forms. -/
def load_glossary (entries : List RawEntry) : EPState :=
  entries.foldl
    (fun st e =>
      if e.source ≠ [] ∧ e.target ≠ [] then
        { entities := assocSet e.source ⟨e.target, e.etype, e.case_sensitive, e.note⟩ st.entities
          source_forms := add_russian_forms e.source st.source_forms }
      else st)
    ⟨[], []⟩

/-- The values recorded for one placeholder:
`{'original': …, 'source': …, 'target': …}`. -/
structure EntInfo where
  original : Str
  source : Str
  target : Str
deriving DecidableEq

/-- `f"__ENT_{idx}__"`. -/
def placeholderTok (idx : Nat) : Str :=
  "__ENT_".toList ++ Nat.toDigits 10 idx ++ "__".toList

def isWordOpt : Option Char → Bool
  | none => false
  | some c => isWordChar c

/-- The regex `\b` assertion between two (possibly absent) characters:
exactly one side is a word character, text edges counting as non-word. -/
def boundaryAt (prev next : Option Char) : Bool :=
  isWordOpt prev != isWordOpt next

/-- `re.compile(r"\b" + re.escape(form) + r"\b", flags).sub(replace_func, text)`
inside `mark_entities`: scan left to right; at a word-boundary-delimited,
(in)case-sensitive occurrence of `form`, emit a fresh placeholder, record
`(original matched substring, source, target)`, and continue after the match
(the boundary context stays that of the input text, as in `re.sub`).
Fuel bounds the scan length; `prev` is the input character before the
current position. -/
def subFormF (form : Str) (cs : Bool) (source target : Str) :
    Nat → Option Char → Str → Nat → List (Str × EntInfo) →
    Str × Nat × List (Str × EntInfo)
  | _, _, [], idx, mp => ([], idx, mp)
  | 0, _, text, idx, mp => (text, idx, mp)
  | f + 1, prev, c :: rest, idx, mp =>
    let txt := c :: rest
    let matched := txt.take form.length
    let ok := !form.isEmpty &&
      decide (matched.length = form.length) &&
      (if cs then decide (matched = form)
       else decide (matched.map pyToLower = form.map pyToLower)) &&
      boundaryAt prev (some c) &&
      boundaryAt matched.getLast? (txt.drop form.length).head?
    if ok then
      let ph := placeholderTok idx
      let r := subFormF form cs source target f matched.getLast? (txt.drop form.length)
        (idx + 1) (mp ++ [(ph, ⟨matched, source, target⟩)])
      (ph ++ r.1, r.2)
    else
      let r := subFormF form cs source target f (some c) rest idx mp
      (c :: r.1, r.2)

def subForm (form : Str) (cs : Bool) (source target : Str)
    (text : Str) (idx : Nat) (mp : List (Str × EntInfo)) :
    Str × Nat × List (Str × EntInfo) :=
  subFormF form cs source target text.length none text idx mp

/-- Deduplication of `set(forms_to_find)` keeping first occurrences (the
claims proved here are insensitive to Python's unspecified set iteration
order among equal-length forms, over which the subsequent stable length sort
is applied). -/
def dedupGo (seen : List Str) : List Str → List Str
  | [] => []
  | x :: xs => if x ∈ seen then dedupGo seen xs else x :: dedupGo (x :: seen) xs

def dedup (l : List Str) : List Str := dedupGo [] l

/-- `forms_to_find` for one entity: the canonical form plus every registered
surface form mapping back to it, deduplicated, sorted longest first. -/
def formsFor (st : EPState) (source : Str) : List Str :=
  sortLenDesc List.length
    (dedup (source :: (st.source_forms.filter (fun p => p.2 = source)).map (fun p => p.1)))

/-- Process one canonical entity inside `mark_entities`: run the
placeholder substitution for each of its surface forms, threading the
rewritten text, the placeholder counter and the mapping. -/
def markStep (st : EPState) (acc : Str × Nat × List (Str × EntInfo)) (source : Str) :
    Str × Nat × List (Str × EntInfo) :=
  match assocGet source st.entities with
  | none => acc
  | some info =>
    (formsFor st source).foldl
      (fun a form => subForm form info.case_sensitive source info.target a.1 a.2.1 a.2.2)
      acc

/-- `EntityPlaceholder.mark_entities`. -/
def mark_entities (st : EPState) (text : Str) : Str × List (Str × EntInfo) :=
  let sortedEntities := sortLenDesc List.length (st.entities.map (fun p => p.1))
  let r := sortedEntities.foldl (markStep st) (text, 0, [])
  (r.1, r.2.2)

/-- Python `s.replace(old, new)`: replace every non-overlapping leftmost
occurrence.  An empty `old` is treated as matching nothing (placeholder
tokens are never empty).  Fuel bounds the scan length. -/
def replaceAllF : Nat → Str → Str → Str → Str
  | _, _, _, [] => []
  | 0, _, _, text => text
  | f + 1, pat, rep, c :: rest =>
    if pat ≠ [] ∧ pat.isPrefixOf (c :: rest) then
      rep ++ replaceAllF f pat rep ((c :: rest).drop pat.length)
    else c :: replaceAllF f pat rep rest

def pyReplace (text pat rep : Str) : Str := replaceAllF text.length pat rep text

/-- The capitalization adjustment of `restore_entities` (lines 169-171):
upper-case the target's first character when the original matched surface
form starts with an upper-case character (targets of length ≤ 1 are
upper-cased wholly).  An empty original (an `IndexError` in Python, never
produced by `mark_entities`) leaves the target unchanged. -/
def adjustCase (original target : Str) : Str :=
  match original with
  | [] => target
  | o :: _ =>
    if pyIsUpper o then
      if 1 < target.length then
        match target with
        | [] => []
        | t :: ts => pyToUpper t :: ts
      else target.map pyToUpper
    else target

/-- `EntityPlaceholder.restore_entities`. -/
def restore_entities (text : Str) (mapping : List (Str × EntInfo)) : Str :=
  mapping.foldl
    (fun result p => pyReplace result p.1 (adjustCase p.2.original p.2.target)) text

/-- Marking followed immediately by restoration, the spec's §8 round trip. -/
def roundtrip (st : EPState) (text : Str) : Str :=
  let m := mark_entities st text
  restore_entities m.1 m.2

end EntityPlaceholder

/-! ### Concrete fixtures referenced by the theorems below -/

namespace TranslationMemory

def mem4 : List Segment := [⟨"abc".toList, "T".toList, []⟩]

def mem3 : List Segment := [⟨"aaaaa".toList, "T".toList, []⟩]

def mem10 : List Segment := [⟨"abc".toList, [], []⟩]

def tm5 : List Segment := add [] "a".toList "x".toList []

end TranslationMemory

namespace MtCache

def ops2 : List SetOp :=
  [⟨"hello".toList, "H".toList, "ru".toList, "en".toList, "deepl".toList⟩]

end MtCache

namespace Translator

def tr6 : Str → Option Str := fun s => if s = "b".toList then none else some s

def ps6 : List Str := ["a".toList, "b".toList, "c".toList]

def tr7 : Str → Option Str := fun _ => some "X\n\nY".toList

end Translator

namespace EntityPlaceholder

/-- The engine state loaded from the one-entity glossary
`[{source: "Катя", target: "Katie", type: "name"}]` (case-sensitive by
default, as in `load_glossary`). -/
def G1 : EPState :=
  load_glossary [⟨"Катя".toList, "Katie".toList, "name".toList, true, []⟩]

end EntityPlaceholder

/-! ## Theorems -/

namespace TranslationMemory

/-- The `search` loop keeps `match_type` equal to the tier classification of
`best_similarity`, and the best similarity never decreases below 0. -/
theorem searchState_inv (memory : List Segment) (source : Str) :
    (searchState memory source).matchType = specTier (searchState memory source).bestSim ∧
      0 ≤ (searchState memory source).bestSim := by
  unfold searchState
  generalize hinit : (⟨none, 0, "none"⟩ : SearchState) = st0
  have h0 : st0.matchType = specTier st0.bestSim ∧ 0 ≤ st0.bestSim := by
    subst hinit; refine ⟨?_, le_refl 0⟩
    show "none" = specTier 0
    decide
  clear hinit
  induction memory generalizing st0 with
  | nil => exact h0
  | cons e rest ih =>
    apply ih
    unfold searchStep
    dsimp only
    split
    · rename_i hlt
      refine ⟨rfl, le_trans h0.2 (le_of_lt hlt)⟩
    · exact h0

/-- C4: whenever `search` returns a match, its reported class is the spec's
three-tier classification of the reported similarity (and the similarity
clears the suggest tier); `find_in_tm` is the suggest-threshold search,
reporting `(absent, 0, "none")` on no match, and its reported class is
always the tier classification of its reported similarity. -/
theorem tm_tier_classification :
    (∀ (memory : List Segment) (source : Str) (thr : Option ℚ) (t : Str) (s : ℚ) (c : String),
        search memory source thr = some (t, s, c) →
        c = specTier s ∧ SUGGEST_THRESHOLD ≤ s) ∧
    (∀ (memory : List Segment) (source : Str),
        find_in_tm memory source =
          match search memory source (some SUGGEST_THRESHOLD) with
          | some (t, s, c) => (some t, s, c)
          | none => (none, 0, "none")) ∧
    (∀ (memory : List Segment) (source : Str),
        (find_in_tm memory source).2.2 = specTier (find_in_tm memory source).2.1) := by
  have main : ∀ (memory : List Segment) (source : Str) (thr : Option ℚ)
      (t : Str) (s : ℚ) (c : String),
      search memory source thr = some (t, s, c) →
      c = specTier s ∧ SUGGEST_THRESHOLD ≤ s := by
    intro memory source thr t s c h
    simp only [search] at h
    split at h
    · exact absurd h (by simp)
    · split at h
      · exact absurd h (by simp)
      · split at h
        · rename_i t0 hbm hcond
          injection h with h
          injection h with h1 h
          injection h with h2 h3
          subst h1; subst h2; subst h3
          exact ⟨(searchState_inv memory source).1, hcond.2⟩
        · exact absurd h (by simp)
  refine ⟨main, fun memory source => rfl, fun memory source => ?_⟩
  unfold find_in_tm
  cases hs : search memory source (some SUGGEST_THRESHOLD) with
  | none => show "none" = specTier 0; decide
  | some r =>
    obtain ⟨t, s, c⟩ := r
    exact (main memory source (some SUGGEST_THRESHOLD) t s c hs).1

/-- Witness for C4 at a concrete one-segment memory with an identical query. -/
theorem tm_tier_classification_witness :
    "exact" = specTier 1 ∧ SUGGEST_THRESHOLD ≤ (1 : ℚ) :=
  tm_tier_classification.1 mem4 "abc".toList none "T".toList 1 "exact" (by decide)

/-- C3: at this memory and query the best similarity is 4/5, strictly below
the default (fuzzy, 0.95) caller threshold, yet `search` called with the
default threshold still returns the match — the caller-supplied
`similarity_threshold` is bound (line 122) but never consulted; the gate
(line 160) always uses `SUGGEST_THRESHOLD`, contradicting the parameter's
own docstring. -/
theorem tm_threshold_ignored :
    search mem3 "aaaab".toList none = some ("T".toList, mkRat 4 5, "suggest") ∧
      mkRat 4 5 < FUZZY_THRESHOLD := by decide

/-- C10: if the best-scoring stored segment carries an empty-string target,
`search` returns absent for every caller threshold (Python truthiness of
`best_match` gates the result), and `find_in_tm` reports
`(absent, 0, "none")`. -/
theorem tm_empty_target_gate :
    ∀ (memory : List Segment) (source : Str) (thr : Option ℚ),
      (searchState memory source).bestMatch = some [] →
      search memory source thr = none ∧ find_in_tm memory source = (none, 0, "none") := by
  intro memory source thr h
  have key : ∀ thr2 : Option ℚ, search memory source thr2 = none := by
    intro thr2
    simp only [search]
    split
    · rfl
    · rw [h]
      simp
  refine ⟨key thr, ?_⟩
  unfold find_in_tm
  rw [key (some SUGGEST_THRESHOLD)]

/-- Witness for C10: a perfectly matching segment whose target is `""`. -/
theorem tm_empty_target_gate_witness :
    search mem10 "abc".toList none = none ∧
      find_in_tm mem10 "abc".toList = (none, 0, "none") :=
  tm_empty_target_gate mem10 "abc".toList none (by decide)

/-- C5 counterexample: the store holds no segment whose source is the raw
string `"a "`, yet `add "a " …` leaves the store unchanged instead of
appending — the duplicate check compares whitespace-stripped sources, not
the raw pre-normalization string. -/
theorem tm_add_raw_uniqueness_counterexample :
    (∀ e ∈ tm5, e.source ≠ "a ".toList) ∧
      add tm5 "a ".toList "y".toList [] = tm5 := by decide

/-- C5 amended: `add` appends the (stripped) segment exactly when no stored
segment's source equals the whitespace-stripped incoming source, leaves the
store unchanged otherwise, and preserves pairwise distinctness of stored
source strings. -/
theorem tm_add_unique_stripped :
    ∀ (memory : List Segment) (source target : Str) (metadata : List (Str × Str)),
      ((¬ ∃ e ∈ memory, e.source = pyStrip source) →
        add memory source target metadata =
          memory ++ [⟨pyStrip source, pyStrip target, metadata⟩]) ∧
      ((∃ e ∈ memory, e.source = pyStrip source) →
        add memory source target metadata = memory) ∧
      (memory.Pairwise (fun a b => a.source ≠ b.source) →
        (add memory source target metadata).Pairwise (fun a b => a.source ≠ b.source)) := by
  intro memory source target metadata
  have hany : (memory.any (fun e => e.source = pyStrip source)) = true ↔
      ∃ e ∈ memory, e.source = pyStrip source := by
    simp [List.any_eq_true]
  refine ⟨?_, ?_, ?_⟩
  · intro hno
    unfold add
    rw [if_neg (fun hc => hno (hany.mp hc))]
  · intro hyes
    unfold add
    rw [if_pos (hany.mpr hyes)]
  · intro hpw
    simp only [add]
    split
    · exact hpw
    · rename_i hc
      have hno : ∀ e ∈ memory, e.source ≠ pyStrip source := by
        intro e he heq
        exact hc (hany.mpr ⟨e, he, heq⟩)
      rw [List.pairwise_append]
      exact ⟨hpw, List.pairwise_singleton _ _,
        fun a ha b hb => by
          simp only [List.mem_singleton] at hb
          subst hb
          exact hno a ha⟩

/-- Witness for C5 amended: a duplicate (post-strip) source is not re-added. -/
theorem tm_add_unique_stripped_witness :
    add tm5 "a".toList "y".toList [] = tm5 :=
  (tm_add_unique_stripped tm5 "a".toList "y".toList []).2.1 (by decide)

end TranslationMemory

namespace MtCache

theorem assocGet_set_self {β : Type} (k : Str) (v : β) (c : List (Str × β)) :
    assocGet k (assocSet k v c) = some v := by
  induction c with
  | nil => simp [assocSet, assocGet]
  | cons p rest ih =>
    obtain ⟨k0, v0⟩ := p
    by_cases hk : k0 = k
    · simp [assocSet, assocGet, hk]
    · simp [assocSet, assocGet, hk, ih]

theorem assocGet_set_other {β : Type} (k k0 : Str) (v : β) (c : List (Str × β))
    (h : k0 ≠ k) : assocGet k (assocSet k0 v c) = assocGet k c := by
  induction c with
  | nil => simp [assocSet, assocGet, h]
  | cons p rest ih =>
    obtain ⟨k1, v1⟩ := p
    by_cases hk : k1 = k0
    · subst hk
      simp [assocSet, assocGet, h]
    · by_cases hk2 : k1 = k
      · subst hk2
        simp [assocSet, assocGet, hk]
      · simp [assocSet, assocGet, hk, hk2, ih]

/-- Unambiguous parsing of one colon-separated field: if the field before the
first `':'` is colon-free on both sides, the decompositions agree. -/
theorem append_colon_inj {a b x y : Str} (ha : ':' ∉ a) (hb : ':' ∉ b)
    (h : a ++ ':' :: x = b ++ ':' :: y) : a = b ∧ x = y := by
  induction a generalizing b with
  | nil =>
    cases b with
    | nil => simpa using h
    | cons d ds =>
      exfalso
      have hd : ':' = d := by simpa using (congrArg (fun l => l.head?) h)
      subst hd
      exact hb (List.mem_cons_self ':' ds)
  | cons c cs ih =>
    cases b with
    | nil =>
      exfalso
      have hc : c = ':' := by simpa using (congrArg (fun l => l.head?) h)
      subst hc
      exact ha (List.mem_cons_self ':' cs)
    | cons d ds =>
      simp only [List.cons_append, List.cons.injEq] at h
      obtain ⟨hcd, htl⟩ := h
      have ha2 : ':' ∉ cs := fun hm => ha (List.mem_cons_of_mem c hm)
      have hb2 : ':' ∉ ds := fun hm => hb (List.mem_cons_of_mem d hm)
      obtain ⟨h1, h2⟩ := ih ha2 hb2 htl
      exact ⟨by rw [hcd, h1], h2⟩

/-- The colon-joined key preimage is injective as long as the engine and the
two language tags are colon-free (the text, the final field, may contain
anything). -/
theorem make_key_inj {t1 s1 g1 e1 t2 s2 g2 e2 : Str}
    (hs1 : ':' ∉ s1) (hg1 : ':' ∉ g1) (he1 : ':' ∉ e1)
    (hs2 : ':' ∉ s2) (hg2 : ':' ∉ g2) (he2 : ':' ∉ e2)
    (h : make_key t1 s1 g1 e1 = make_key t2 s2 g2 e2) :
    t1 = t2 ∧ s1 = s2 ∧ g1 = g2 ∧ e1 = e2 := by
  unfold make_key at h
  obtain ⟨he, h⟩ := append_colon_inj he1 he2 h
  obtain ⟨hs, h⟩ := append_colon_inj hs1 hs2 h
  obtain ⟨hg, ht⟩ := append_colon_inj hg1 hg2 h
  exact ⟨ht, hs, hg, he⟩

theorem assocGet_runSets_none (ops : List SetOp) (c : List (Str × CacheEntry)) (k : Str)
    (hc : assocGet k c = none)
    (hops : ∀ op ∈ ops, make_key op.text op.source_lang op.target_lang op.engine ≠ k) :
    assocGet k (runSets ops c) = none := by
  induction ops generalizing c with
  | nil => exact hc
  | cons op rest ih =>
    simp only [runSets]
    apply ih
    · unfold set
      rw [assocGet_set_other _ _ _ _ (hops op (List.mem_cons_self op rest))]
      exact hc
    · intro op2 hop2
      exact hops op2 (List.mem_cons_of_mem op hop2)

/-- C2 counterexample: the tuples `(text, srcLang, tgtLang, engine) =
("t","z","w","x:y")` and `("w:t","y","z","x")` differ in every component,
yet both digest the preimage `"x:y:z:w:t"`, so after storing the first, a
`get` of the second returns the stored translation instead of absent. -/
theorem cache_key_collision :
    get (set [] "t".toList "TR".toList "z".toList "w".toList "x:y".toList)
        "w:t".toList "y".toList "z".toList "x".toList = some "TR".toList ∧
      ("w:t".toList, "y".toList, "z".toList, "x".toList) ≠
        ("t".toList, "z".toList, "w".toList, "x:y".toList) := by decide

/-- C2 amended: a `get` immediately after a `set` with the identical four
arguments returns the stored translation (unconditionally); and over any
history of `set` calls whose engine and language tags are colon-free, a
`get` whose colon-free tuple differs from every stored tuple returns
absent — the colon-joined digest preimage is then unambiguous. -/
theorem cache_determinism_and_separation :
    (∀ (cache : List (Str × CacheEntry)) (text tr sl tl eng : Str),
        get (set cache text tr sl tl eng) text sl tl eng = some tr) ∧
    (∀ (ops : List SetOp) (qt qs qg qe : Str),
        ':' ∉ qs → ':' ∉ qg → ':' ∉ qe →
        (∀ op ∈ ops, ':' ∉ op.source_lang ∧ ':' ∉ op.target_lang ∧ ':' ∉ op.engine) →
        (∀ op ∈ ops,
          (op.text, op.source_lang, op.target_lang, op.engine) ≠ (qt, qs, qg, qe)) →
        get (runSets ops []) qt qs qg qe = none) := by
  constructor
  · intro cache text tr sl tl eng
    unfold get set
    rw [assocGet_set_self]
    rfl
  · intro ops qt qs qg qe hqs hqg hqe hcf hne
    unfold get
    rw [assocGet_runSets_none ops [] _ rfl]
    · rfl
    · intro op hop hkey
      obtain ⟨hcs, hcg, hce⟩ := hcf op hop
      obtain ⟨h1, h2, h3, h4⟩ := make_key_inj hcs hcg hce hqs hqg hqe hkey
      exact hne op hop (by rw [h1, h2, h3, h4])

/-- Witness for C2: a concrete set-then-get hit and a concrete miss for a
different text under the same colon-free engine and language tags. -/
theorem cache_determinism_and_separation_witness :
    get (set [] "hi".toList "HI".toList "ru".toList "en".toList "deepl".toList)
        "hi".toList "ru".toList "en".toList "deepl".toList = some "HI".toList ∧
      get (runSets ops2 []) "bye".toList "ru".toList "en".toList "deepl".toList = none :=
  ⟨cache_determinism_and_separation.1 [] "hi".toList "HI".toList "ru".toList
      "en".toList "deepl".toList,
    cache_determinism_and_separation.2 ops2 "bye".toList "ru".toList "en".toList
      "deepl".toList (by decide) (by decide) (by decide) (by decide) (by decide)⟩

end MtCache

namespace Glossary

theorem mem_insertLenDesc {α : Type} (len : α → Nat) (x z : α) (l : List α)
    (h : z ∈ insertLenDesc len x l) : z = x ∨ z ∈ l := by
  induction l with
  | nil => simpa [insertLenDesc] using h
  | cons y ys ih =>
    simp only [insertLenDesc] at h
    split at h
    · rcases List.mem_cons.mp h with h1 | h1
      · exact Or.inl h1
      · exact Or.inr h1
    · rcases List.mem_cons.mp h with h1 | h1
      · exact Or.inr (h1 ▸ List.mem_cons_self y ys)
      · rcases ih h1 with h2 | h2
        · exact Or.inl h2
        · exact Or.inr (List.mem_cons_of_mem y h2)

theorem sorted_insertLenDesc {α : Type} (len : α → Nat) (x : α) (l : List α)
    (h : l.Sorted (fun a b => len b ≤ len a)) :
    (insertLenDesc len x l).Sorted (fun a b => len b ≤ len a) := by
  induction l with
  | nil => simp [insertLenDesc]
  | cons y ys ih =>
    obtain ⟨hall, hys⟩ := List.sorted_cons.mp h
    simp only [insertLenDesc]
    split
    · rename_i hxy
      refine List.sorted_cons.mpr ⟨?_, h⟩
      intro b hb
      rcases List.mem_cons.mp hb with h1 | h1
      · exact h1 ▸ hxy
      · exact le_trans (hall b h1) hxy
    · rename_i hxy
      refine List.sorted_cons.mpr ⟨?_, ih hys⟩
      intro b hb
      rcases mem_insertLenDesc len x b ys hb with h1 | h1
      · exact h1 ▸ le_of_lt (lt_of_not_le hxy)
      · exact hall b h1

/-- The stable length sort used by `Glossary.apply` really orders terms by
decreasing source length. -/
theorem sorted_sortLenDesc {α : Type} (len : α → Nat) (l : List α) :
    (sortLenDesc len l).Sorted (fun a b => len b ≤ len a) := by
  induction l with
  | nil => simp [sortLenDesc]
  | cons x xs ih => exact sorted_insertLenDesc len x (sortLenDesc len xs) ih

/-- C9: `apply` processes terms in order of decreasing source length, and on
the spec's §8 fixture the two-word term wins: the greeting is rewritten with
`"Peter I."` substituted and never with the partial `"Pete Иванович"`. -/
theorem glossary_longest_match :
    (∀ (g : List (Str × Str)),
        (sortLenDesc (fun p => p.1.length) g).Sorted (fun a b => b.1.length ≤ a.1.length)) ∧
    Glossary.apply
        [("Петр Иванович".toList, "Peter I.".toList), ("Петр".toList, "Pete".toList)]
        "Здравствуйте, Петр Иванович".toList = "Здравствуйте, Peter I.".toList ∧
    Glossary.apply
        [("Петр Иванович".toList, "Peter I.".toList), ("Петр".toList, "Pete".toList)]
        "Здравствуйте, Петр Иванович".toList ≠ "Здравствуйте, Pete Иванович".toList := by
  refine ⟨fun g => sorted_sortLenDesc _ g, ?_, ?_⟩ <;> decide

end Glossary

namespace Translator

theorem splitSepF_ne_nil (sep : Str) :
    ∀ (fuel : Nat) (acc text : Str), splitSepF sep fuel acc text ≠ [] := by
  intro fuel
  induction fuel with
  | zero => intro acc text; cases text <;> simp [splitSepF]
  | succ f ih =>
    intro acc text
    cases text with
    | nil => simp [splitSepF]
    | cons c rest =>
      simp only [splitSepF]
      split
      · simp
      · exact ih (c :: acc) rest

theorem pySplit_ne_nil (sep s : Str) : pySplit sep s ≠ [] := by
  unfold pySplit
  split
  · simp
  · exact splitSepF_ne_nil sep s.length [] s

theorem emitBatch_length_pos (b : List Str) (t : Str) : 0 < (emitBatch b t).length := by
  simp only [emitBatch]
  split
  · exact List.length_pos.mpr (pySplit_ne_nil sepNN t)
  · simp

/-- C6: in a three-batch document whose second batch's pipeline raises, the
output is the first batch's translation, the visible failure marker for
batch 2, then the third batch's translation — at least three entries, every
batch represented. -/
theorem translate_docx_partial_failure :
    ∀ (tr : Str → Option Str) (batch_size : Nat) (paragraphs : List Str)
      (b1 b2 b3 : List Str) (t1 t3 : Str),
      mkBatches batch_size (paragraphs.filter (fun p => !(pyStrip p).isEmpty)) =
        [b1, b2, b3] →
      tr (pyJoin sepNN b1) = some t1 →
      tr (pyJoin sepNN b2) = none →
      tr (pyJoin sepNN b3) = some t3 →
      translate_docx tr batch_size paragraphs =
          emitBatch b1 t1 ++ batchMarker 2 :: emitBatch b3 t3 ∧
        3 ≤ (translate_docx tr batch_size paragraphs).length := by
  intro tr bs ps b1 b2 b3 t1 t3 hb h1 h2 h3
  have heq : translate_docx tr bs ps =
      emitBatch b1 t1 ++ batchMarker 2 :: emitBatch b3 t3 := by
    unfold translate_docx
    rw [hb]
    simp only [processBatches, h1, h2, h3]
    simp
  refine ⟨heq, ?_⟩
  rw [heq]
  have l1 := emitBatch_length_pos b1 t1
  have l3 := emitBatch_length_pos b3 t3
  simp only [List.length_append, List.length_cons]
  omega

/-- Witness for C6: batch size 1 over three one-paragraph batches with the
middle translation failing. -/
theorem translate_docx_partial_failure_witness :
    translate_docx tr6 1 ps6 =
        emitBatch ["a".toList] "a".toList ++
          batchMarker 2 :: emitBatch ["c".toList] "c".toList ∧
      3 ≤ (translate_docx tr6 1 ps6).length :=
  translate_docx_partial_failure tr6 1 ps6 ["a".toList] ["b".toList] ["c".toList]
    "a".toList "c".toList (by decide) (by decide) (by decide) (by decide)

/-- C7: a document forming a single batch is emitted as the separator-split
paragraphs exactly when the split count matches the batch's paragraph
count, and otherwise as exactly one combined paragraph. -/
theorem translate_docx_batch_alignment :
    ∀ (tr : Str → Option Str) (batch_size : Nat) (paragraphs : List Str)
      (b : List Str) (t : Str),
      mkBatches batch_size (paragraphs.filter (fun p => !(pyStrip p).isEmpty)) = [b] →
      tr (pyJoin sepNN b) = some t →
      translate_docx tr batch_size paragraphs =
          (if (pySplit sepNN t).length = b.length then pySplit sepNN t else [t]) ∧
        ((pySplit sepNN t).length ≠ b.length →
          (translate_docx tr batch_size paragraphs).length = 1) := by
  intro tr bs ps b t hb ht
  have heq : translate_docx tr bs ps =
      (if (pySplit sepNN t).length = b.length then pySplit sepNN t else [t]) := by
    unfold translate_docx
    rw [hb]
    simp only [processBatches, ht]
    simp [emitBatch]
  refine ⟨heq, fun hne => ?_⟩
  rw [heq, if_neg hne]
  rfl

/-- Witness for C7: a 3-paragraph batch whose translation splits into only 2
segments is emitted as exactly one combined paragraph. -/
theorem translate_docx_batch_alignment_witness :
    (translate_docx tr7 3 ps6).length = 1 :=
  (translate_docx_batch_alignment tr7 3 ps6 ps6 "X\n\nY".toList
      (by decide) (by decide)).2 (by decide)

end Translator

namespace EntityPlaceholder

/-- C1 counterexample: marking the single-word text `"Катя"` and restoring
immediately yields the glossary target `"Katie"`, not the original text —
`restore_entities` substitutes target forms, so the round trip is not the
identity whenever a matched entity's target differs from the matched
original. -/
theorem entity_roundtrip_counterexample :
    roundtrip G1 "Катя".toList = "Katie".toList ∧
      roundtrip G1 "Катя".toList ≠ "Катя".toList := by decide

/-- C8 counterexample: on `"катю увидели"` the inflection rule for `-я`
names generates the form `"катю"`, the match is lowercase, and restoration
yields the target verbatim — `"Katie увидели"`, not the claimed lower-cased
`"katie увидели"`: the code upper-cases on capitalized originals but never
lower-cases. -/
theorem entity_case_counterexample :
    roundtrip G1 "катю увидели".toList = "Katie увидели".toList ∧
      roundtrip G1 "катю увидели".toList ≠ "katie увидели".toList := by decide

/-- The placeholder substitution never shrinks the mapping. -/
theorem subFormF_mapping_mono (form : Str) (cs : Bool) (source target : Str) :
    ∀ (fuel : Nat) (prev : Option Char) (text : Str) (idx : Nat)
      (mp : List (Str × EntInfo)),
      mp.length ≤ (subFormF form cs source target fuel prev text idx mp).2.2.length := by
  intro fuel
  induction fuel with
  | zero =>
    intro prev text idx mp
    cases text <;> simp [subFormF]
  | succ f ih =>
    intro prev text idx mp
    cases text with
    | nil => simp [subFormF]
    | cons c rest =>
      simp only [subFormF]
      split <;> split
      all_goals
        first
          | exact ih _ _ _ _
          | (refine le_trans ?_ (ih _ _ _ _); simp)

/-- If the placeholder substitution recorded nothing, it changed nothing:
the text, counter and mapping all come back untouched. -/
theorem subFormF_no_match (form : Str) (cs : Bool) (source target : Str) :
    ∀ (fuel : Nat) (prev : Option Char) (text : Str) (idx : Nat)
      (mp : List (Str × EntInfo)),
      (subFormF form cs source target fuel prev text idx mp).2.2.length ≤ mp.length →
      subFormF form cs source target fuel prev text idx mp = (text, idx, mp) := by
  intro fuel
  induction fuel with
  | zero =>
    intro prev text idx mp _
    cases text <;> simp [subFormF]
  | succ f ih =>
    intro prev text idx mp h
    cases text with
    | nil => simp [subFormF]
    | cons c rest =>
      revert h
      simp only [subFormF]
      split <;> split
      all_goals
        first
          | (intro h; rw [ih (some c) rest idx mp h])
          | (intro h
             exfalso
             have hm := subFormF_mapping_mono form cs source target f
               (List.take form.length (c :: rest)).getLast?
               (List.drop form.length (c :: rest)) (idx + 1)
               (mp ++ [(placeholderTok idx,
                 (⟨List.take form.length (c :: rest), source, target⟩ : EntInfo))])
             have h2 : (subFormF form cs source target f
                 (List.take form.length (c :: rest)).getLast?
                 (List.drop form.length (c :: rest)) (idx + 1)
                 (mp ++ [(placeholderTok idx,
                   (⟨List.take form.length (c :: rest), source, target⟩ :
                     EntInfo))])).2.2.length ≤ mp.length := h
             rw [List.length_append, List.length_singleton] at hm
             omega)

theorem formsFold_mono (cs : Bool) (source target : Str) (forms : List Str) :
    ∀ (acc : Str × Nat × List (Str × EntInfo)),
      acc.2.2.length ≤
        (forms.foldl (fun a form => subForm form cs source target a.1 a.2.1 a.2.2)
          acc).2.2.length := by
  induction forms with
  | nil => intro acc; simp
  | cons form rest ih =>
    intro acc
    simp only [List.foldl_cons]
    exact le_trans (subFormF_mapping_mono form cs source target acc.1.length none
      acc.1 acc.2.1 acc.2.2) (ih _)

theorem formsFold_no_match (cs : Bool) (source target : Str) (forms : List Str) :
    ∀ (acc : Str × Nat × List (Str × EntInfo)),
      (forms.foldl (fun a form => subForm form cs source target a.1 a.2.1 a.2.2)
          acc).2.2.length ≤ acc.2.2.length →
      forms.foldl (fun a form => subForm form cs source target a.1 a.2.1 a.2.2) acc =
        acc := by
  induction forms with
  | nil => intro acc _; rfl
  | cons form rest ih =>
    intro acc h
    simp only [List.foldl_cons] at h ⊢
    have hmono1 : acc.2.2.length ≤
        (subForm form cs source target acc.1 acc.2.1 acc.2.2).2.2.length :=
      subFormF_mapping_mono form cs source target acc.1.length none
        acc.1 acc.2.1 acc.2.2
    have hmono2 := formsFold_mono cs source target rest
      (subForm form cs source target acc.1 acc.2.1 acc.2.2)
    have hstep : subForm form cs source target acc.1 acc.2.1 acc.2.2 =
        (acc.1, acc.2.1, acc.2.2) :=
      subFormF_no_match form cs source target acc.1.length none acc.1 acc.2.1 acc.2.2
        (show (subForm form cs source target acc.1 acc.2.1 acc.2.2).2.2.length ≤
            acc.2.2.length by omega)
    have hacc : ((acc.1, acc.2.1, acc.2.2) : Str × Nat × List (Str × EntInfo)) = acc := rfl
    rw [hstep, hacc] at h ⊢
    exact ih acc h

theorem markStep_mono (st : EPState) (acc : Str × Nat × List (Str × EntInfo))
    (source : Str) : acc.2.2.length ≤ (markStep st acc source).2.2.length := by
  unfold markStep
  cases assocGet source st.entities with
  | none => simp
  | some info => exact formsFold_mono info.case_sensitive source info.target _ acc

theorem markStep_no_match (st : EPState) (acc : Str × Nat × List (Str × EntInfo))
    (source : Str) (h : (markStep st acc source).2.2.length ≤ acc.2.2.length) :
    markStep st acc source = acc := by
  revert h
  unfold markStep
  cases assocGet source st.entities with
  | none => intro _; rfl
  | some info => exact formsFold_no_match info.case_sensitive source info.target _ acc

theorem keysFold_mono (st : EPState) (keys : List Str) :
    ∀ (acc : Str × Nat × List (Str × EntInfo)),
      acc.2.2.length ≤ (keys.foldl (markStep st) acc).2.2.length := by
  induction keys with
  | nil => intro acc; simp
  | cons k rest ih =>
    intro acc
    simp only [List.foldl_cons]
    exact le_trans (markStep_mono st acc k) (ih _)

theorem keysFold_no_match (st : EPState) (keys : List Str) :
    ∀ (acc : Str × Nat × List (Str × EntInfo)),
      (keys.foldl (markStep st) acc).2.2.length ≤ acc.2.2.length →
      keys.foldl (markStep st) acc = acc := by
  induction keys with
  | nil => intro acc _; rfl
  | cons k rest ih =>
    intro acc h
    simp only [List.foldl_cons] at h ⊢
    have hmono1 := markStep_mono st acc k
    have hmono2 := keysFold_mono st rest (markStep st acc k)
    have hstep : markStep st acc k = acc := markStep_no_match st acc k (by omega)
    rw [hstep] at h ⊢
    exact ih acc h

/-- An empty mapping out of `mark_entities` means no pattern ever matched,
so the marked text is the input text itself. -/
theorem mark_entities_empty_mapping (st : EPState) (text : Str)
    (h : (mark_entities st text).2 = []) : (mark_entities st text).1 = text := by
  have h2 : ((sortLenDesc List.length (st.entities.map (fun p => p.1))).foldl
      (markStep st) (text, 0, [])).2.2 = [] := h
  have hlen : ((sortLenDesc List.length (st.entities.map (fun p => p.1))).foldl
      (markStep st) (text, 0, [])).2.2.length ≤
      (((text, 0, []) : Str × Nat × List (Str × EntInfo))).2.2.length := by
    rw [h2]
  have h3 := keysFold_no_match st
    (sortLenDesc List.length (st.entities.map (fun p => p.1))) (text, 0, []) hlen
  show ((sortLenDesc List.length (st.entities.map (fun p => p.1))).foldl
      (markStep st) (text, 0, [])).1 = text
  rw [h3]

/-- C1 amended: the mark-then-restore round trip returns the input text
exactly in the no-match case — when `mark_entities` recorded no placeholder,
restoration is the identity and the marked text is the input.  (When a
match is recorded, the round trip substitutes the capitalization-adjusted
target form instead of the original, as the counterexample shows.) -/
theorem entity_roundtrip_amended :
    ∀ (st : EPState) (text : Str),
      (mark_entities st text).2 = [] → roundtrip st text = text := by
  intro st text h
  show restore_entities (mark_entities st text).1 (mark_entities st text).2 = text
  rw [h]
  show (mark_entities st text).1 = text
  exact mark_entities_empty_mapping st text h

/-- Witness for C1 amended: no form of the `Катя` entity occurs in
`"привет"`, so marking records nothing and the round trip is the identity. -/
theorem entity_roundtrip_amended_witness :
    (mark_entities G1 "привет".toList).2 = [] ∧
      roundtrip G1 "привет".toList = "привет".toList :=
  ⟨by decide, entity_roundtrip_amended G1 "привет".toList (by decide)⟩

/-- C8 amended: restoration upper-cases the target's first character when
the matched original starts upper-case (length-≤1 targets wholly), and
otherwise leaves the target unchanged — it never lower-cases; on the spec's
fixture the lowercase inflected match `"катю"` therefore restores to
`"Katie увидели"` with its capital K intact. -/
theorem entity_case_preservation :
    (∀ (o : Char) (os target : Str),
        pyIsUpper o = false → adjustCase (o :: os) target = target) ∧
    (∀ (o : Char) (os : Str) (t : Char) (ts : Str),
        pyIsUpper o = true → 1 < (t :: ts).length →
        adjustCase (o :: os) (t :: ts) = pyToUpper t :: ts) ∧
    (∀ (o : Char) (os target : Str),
        pyIsUpper o = true → target.length ≤ 1 →
        adjustCase (o :: os) target = target.map pyToUpper) ∧
    (mark_entities G1 "катю увидели".toList).2 =
      [("__ENT_0__".toList,
        ⟨"катю".toList, "Катя".toList, "Katie".toList⟩)] ∧
    roundtrip G1 "катю увидели".toList = "Katie увидели".toList := by
  refine ⟨?_, ?_, ?_, by decide, by decide⟩
  · intro o os target h
    simp [adjustCase, h]
  · intro o os t ts h hlen
    simp [adjustCase, h, hlen]
    intro h2
    subst h2
    rfl
  · intro o os target h hlen
    have : ¬ 1 < target.length := by omega
    simp [adjustCase, h, this]

/-- Witness for C8 amended: the lowercase original `"катю"` leaves the
target `"Katie"` untouched. -/
theorem entity_case_preservation_witness :
    adjustCase ('к' :: "атю".toList) "Katie".toList = "Katie".toList :=
  entity_case_preservation.1 'к' "атю".toList "Katie".toList (by decide)

end EntityPlaceholder

end BookTranslator
